import Mathlib

/-!
Verification of `fetch_zotero_publications.py`.

Strings are modelled as `List Char` (Python `str`), restricted to the
ASCII behaviour of `str.strip`, `str.lower`, `\d` and `\b`: whitespace,
case mapping and character classes are taken over ASCII, which covers
every keyword and every example in the specification.
-/

set_option maxHeartbeats 1000000

abbrev Str := List Char

/-- Whitespace as stripped by `str.strip()` (ASCII fragment). -/
def isWS (c : Char) : Bool :=
  c == ' ' || c == '\t' || c == '\n' || c == '\r'

/-- Leading-whitespace removal, the left half of `str.strip()`. -/
def dropLeadWS (s : Str) : Str := s.dropWhile isWS

/-- Trailing-whitespace removal, the right half of `str.strip()`. -/
def dropTrailWS : Str → Str
  | [] => []
  | c :: cs =>
    let r := dropTrailWS cs
    if r.isEmpty && isWS c then [] else c :: r

/-- Python `str.strip()`: remove leading and trailing whitespace. -/
def trim (s : Str) : Str := dropTrailWS (dropLeadWS s)

/-- Python `str.lower()` (ASCII fragment; the keyword lists are already lower-case). -/
def lowerStr (s : Str) : Str := s.map Char.toLower

-- ---------------------------------------------------------------------------
-- `extract_year`: `re.search(r"\b\d{4}\b", s)`
-- ---------------------------------------------------------------------------

/-- A regex word character (`\w`): letter, digit or underscore. -/
def isWordChar (c : Char) : Bool := c.isAlphanum || c == '_'

/-- The pattern `\b\d{4}\b` matches at index `i`: four digits at `i..i+3`, no word
character immediately before `i`, no word character at `i+4`. -/
def matchAt (s : Str) (i : Nat) : Bool :=
  (List.range 4).all (fun k => (s[i+k]?).any Char.isDigit) &&
  (i == 0 || !((s[i-1]?).any isWordChar)) &&
  !((s[i+4]?).any isWordChar)

/-- The boundary test the specification describes instead: the run must be
bounded by a non-digit (not a non-word character) or the string edge. -/
def matchAtClaimed (s : Str) (i : Nat) : Bool :=
  (List.range 4).all (fun k => (s[i+k]?).any Char.isDigit) &&
  (i == 0 || !((s[i-1]?).any Char.isDigit)) &&
  !((s[i+4]?).any Char.isDigit)

/-- Left-to-right scan for the least index satisfying `p`, as `re.search`
scans for the leftmost match; `fuel` bounds the indices tried. -/
def scanIdx (p : Nat → Bool) : Nat → Nat → Option Nat
  | _, 0 => none
  | i, fuel+1 => if p i then some i else scanIdx p (i+1) fuel

/-- Python `int` applied to a digit string. -/
def digitsToNat (l : Str) : Nat :=
  l.foldl (fun n c => n * 10 + (c.toNat - 48)) 0

/-- The function `extract_year(date_str)`: `None` for a missing or empty string, else the
integer value of the first `\b\d{4}\b` match, or `None` when there is none. -/
def extract_year : Option Str → Option Nat
  | none => none
  | some s =>
    if s.isEmpty then none
    else (scanIdx (matchAt s) 0 s.length).map
      (fun i => digitsToNat ((s.drop i).take 4))

/-- The specification's reading of `extract_year`, with the boundaries taken
to be non-digit-or-edge rather than non-word-or-edge. -/
def extract_year_claimed : Option Str → Option Nat
  | none => none
  | some s =>
    if s.isEmpty then none
    else (scanIdx (matchAtClaimed s) 0 s.length).map
      (fun i => digitsToNat ((s.drop i).take 4))

/-- Declarative form of a `\b\d{4}\b` match at `i`: the four positions
`i..i+3` hold digits, the position before `i` (when it exists) holds a
non-word character, and the position `i+4` is the string end or holds a
non-word character. -/
def RunAt (s : Str) (i : Nat) : Prop :=
  (∀ k, k < 4 → (s[i+k]?).any Char.isDigit = true) ∧
  (i = 0 ∨ (s[i-1]?).all (fun c => !isWordChar c) = true) ∧
  (i + 4 = s.length ∨ (s[i+4]?).all (fun c => !isWordChar c) = true)

instance (s : Str) (i : Nat) : Decidable (RunAt s i) := by
  unfold RunAt; infer_instance

example : extract_year (some "2020-03-01".data) = some 2020 := by decide
example : extract_year (some "circa 1999 reprint 2005".data) = some 1999 := by decide
example : extract_year (some "a2020".data) = none := by decide
example : extract_year_claimed (some "a2020".data) = some 2020 := by decide

-- ---------------------------------------------------------------------------
-- `assign_region`
-- ---------------------------------------------------------------------------

/-- Tests whether `needle` is an initial segment of `hay`. -/
def leadsWith : Str → Str → Bool
  | [], _ => true
  | _ :: _, [] => false
  | c :: cs, h :: hs => c == h && leadsWith cs hs

/-- Python's `needle in hay` substring test. -/
def containsSub (needle : Str) : Str → Bool
  | [] => leadsWith needle []
  | c :: rest => leadsWith needle (c :: rest) || containsSub needle rest

def hawaiiKeywords : List Str :=
  ["hawai", "hawaii", "kahekili", "maui", "ahu", "northwestern",
   "papahānaumokuākea", "kauai", "oahu", "big island"].map String.data

def samoaKeywords : List Str :=
  ["samoa", "aua", "swains", "american samoa"].map String.data

def marianaKeywords : List Str :=
  ["guam", "mariana", "saipan", "tinian", "rota"].map String.data

def priaKeywords : List Str :=
  ["wake", "baker", "howland", "jarvis", "palmyra",
   "kingman", "johnston", "jarvisisland"].map String.data

/-- The function `assign_region(title)`: priority chain over the lower-cased title. -/
def assign_region (title : Str) : Str :=
  if title.isEmpty then "Unknown".data
  else
    let tl := lowerStr title
    if hawaiiKeywords.any (fun kw => containsSub kw tl) then
      "Hawaiian Archipelago".data
    else if samoaKeywords.any (fun kw => containsSub kw tl) then
      "American Samoa".data
    else if marianaKeywords.any (fun kw => containsSub kw tl) then
      "Mariana Archipelago".data
    else if priaKeywords.any (fun kw => containsSub kw tl) then
      "Pacific Remote Island Areas".data
    else if containsSub "pacific".data tl then
      "Pacific-wide".data
    else
      "Unknown".data

/-- The five keyword groups in their fixed priority order, paired with the
region each one names. -/
def regionGroups : List (List Str × Str) :=
  [(hawaiiKeywords, "Hawaiian Archipelago".data),
   (samoaKeywords, "American Samoa".data),
   (marianaKeywords, "Mariana Archipelago".data),
   (priaKeywords, "Pacific Remote Island Areas".data),
   (["pacific".data], "Pacific-wide".data)]

/-- Declarative region assignment: the first group in `regionGroups` with a
substring match against the lower-cased title, `Unknown` when none match. -/
def firstMatchingRegion (title : Str) : Str :=
  match regionGroups.find? (fun g => g.1.any (fun kw => containsSub kw (lowerStr title))) with
  | some g => g.2
  | none => "Unknown".data

example : assign_region "Coral reefs of Guam in the Pacific".data
    = "Mariana Archipelago".data := by decide
example : assign_region "Broad Pacific fisheries trends".data
    = "Pacific-wide".data := by decide
example : assign_region [] = "Unknown".data := by decide

-- ---------------------------------------------------------------------------
-- `clean_creators`
-- ---------------------------------------------------------------------------

structure Creator where
  firstName : Str
  lastName : Str
deriving DecidableEq

/-- Renders `f"{first} {last}".strip()` on the already-trimmed name parts. -/
def renderName (c : Creator) : Str :=
  trim (trim c.firstName ++ [' '] ++ trim c.lastName)

/-- The kept, rendered names: entries with both trimmed names empty drop. -/
def cleanNames (creators : List Creator) : List Str :=
  creators.filterMap (fun c =>
    if (trim c.firstName).isEmpty && (trim c.lastName).isEmpty then none
    else some (renderName c))

/-- The function `clean_creators(creators)`: join the kept names with `"; "`. -/
def clean_creators (creators : List Creator) : Str :=
  if creators.isEmpty then []
  else List.intercalate "; ".data (cleanNames creators)

example : clean_creators [⟨"Jane".data, "Doe".data⟩, ⟨[], []⟩] = "Jane Doe".data := by decide
example : clean_creators [⟨[], " Doe ".data⟩] = "Doe".data := by decide

-- ---------------------------------------------------------------------------
-- Records and `process_publications`
-- ---------------------------------------------------------------------------

/-- The nested `"data"` mapping of a raw item; an absent string field is the
empty string, matching `data.get(field, "")`. -/
structure RecordData where
  title : Str
  creators : List Creator
  date : Str
  DOI : Str
  ISSN : Str
  url : Str
  itemType : Str
  publicationTitle : Str
deriving DecidableEq

/-- A raw item: either a well-shaped record, or one whose processing raises
(the `except` branch of the per-record loop). -/
inductive RawRecord where
  | ok (data : RecordData)
  | malformed
deriving DecidableEq

def isMalformed : RawRecord → Bool
  | .ok _ => false
  | .malformed => true

structure Publication where
  title : Str
  creators : Str
  year : Option Nat
  doi : Option Str
  issn : Option Str
  url : Option Str
  region : Str
  item_type : Str
  publication_title : Option Str
deriving DecidableEq

/-- Python `s or None` after a strip: the empty string becomes absent. -/
def strOrNone (s : Str) : Option Str :=
  if s.isEmpty then none else some s

/-- The publication dictionary built for one record. -/
def mkPub (d : RecordData) : Publication :=
  let t := trim d.title
  { title := t
    creators := clean_creators d.creators
    year := extract_year (some d.date)
    doi := strOrNone (trim d.DOI)
    issn := strOrNone (trim d.ISSN)
    url := strOrNone (trim d.url)
    region := assign_region t
    item_type := d.itemType
    publication_title := strOrNone (trim d.publicationTitle) }

/-- The per-record loop of `process_publications`: skip empty titles, skip
titles already seen, count malformed records as errors; returns the
publication list in input order together with the error count. -/
def processLoop : List RawRecord → List Str → List Publication × Nat
  | [], _ => ([], 0)
  | .malformed :: rest, seen =>
    ((processLoop rest seen).1, (processLoop rest seen).2 + 1)
  | .ok d :: rest, seen =>
    let t := trim d.title
    if t.isEmpty then processLoop rest seen
    else if t ∈ seen then processLoop rest seen
    else (mkPub d :: (processLoop rest (t :: seen)).1, (processLoop rest (t :: seen)).2)

/-- Sort key: `x["year"] or 0`. -/
def yearKey (p : Publication) : Nat := p.year.getD 0

/-- Stable insertion for the descending year sort: a publication goes in
front of the first element whose key is strictly smaller, staying behind
every earlier element with an equal key. -/
def insertByYear (p : Publication) : List Publication → List Publication
  | [] => [p]
  | q :: qs =>
    if yearKey q ≤ yearKey p then p :: q :: qs else q :: insertByYear p qs

def sortByYearDescAux : List Publication → List Publication
  | [] => []
  | p :: ps => insertByYear p (sortByYearDescAux ps)

/-- Python `list.sort(key=..., reverse=True)`: stable descending sort by `yearKey`. -/
def sortByYearDesc (l : List Publication) : List Publication :=
  sortByYearDescAux l

/-- The function `process_publications(all_items)`: the sorted publication list and the
error count. -/
def process_publications (items : List RawRecord) : List Publication × Nat :=
  (sortByYearDesc (processLoop items []).1, (processLoop items []).2)

def processedPubs (items : List RawRecord) : List Publication :=
  (processLoop items []).1

def pubsOf (items : List RawRecord) : List Publication :=
  (process_publications items).1

def errorsOf (items : List RawRecord) : Nat :=
  (process_publications items).2

/-- The printed statistic `len(all_items) - len(filtered) - errors`,
computed in `Int` because the Python expression can go negative. -/
def duplicates_removed (items : List RawRecord) : Int :=
  (items.length : Int) - (pubsOf items).length - (errorsOf items)

/-- The well-shaped records of the input, in order. -/
def okDatas : List RawRecord → List RecordData
  | [] => []
  | .ok d :: rest => d :: okDatas rest
  | .malformed :: rest => okDatas rest

/-- The records that survive the skip rules: nonempty trimmed title not seen
before; mirrors the loop with publication construction stripped out. -/
def firstOccRecords : List RawRecord → List Str → List RecordData
  | [], _ => []
  | .malformed :: rest, seen => firstOccRecords rest seen
  | .ok d :: rest, seen =>
    let t := trim d.title
    if t.isEmpty then firstOccRecords rest seen
    else if t ∈ seen then firstOccRecords rest seen
    else d :: firstOccRecords rest (t :: seen)

/-- Keep the first occurrence of every string, erasing the later ones. -/
def firstDedup : List Str → List Str
  | [] => []
  | t :: rest => t :: firstDedup (rest.filter (fun u => u != t))
termination_by l => l.length
decreasing_by
  simp only [List.length_cons]
  exact Nat.lt_succ_of_le (List.length_filter_le _ _)

-- ---------------------------------------------------------------------------
-- `fetch_all_items`
-- ---------------------------------------------------------------------------

/-- One request's outcome: a JSON page of items, or a raised
`RequestException` (network error, non-2xx status, timeout). -/
inductive FetchResponse where
  | success (items : List RawRecord)
  | failure

/-- The loop state of `fetch_all_items`. -/
structure FetchState where
  all_items : List RawRecord
  start : Nat
  retry_count : Nat
deriving DecidableEq

/-- The constant `max_retries = 3`. -/
def maxRetries : Nat := 3

/-- One iteration of the fetch loop: `.inr` means the loop breaks with the
given result, `.inl` is the state carried to the next request. An empty
page breaks with everything accumulated; a non-empty page is appended, the
offset advances by `batch` and the retry counter resets; a failure leaves
the offset and accumulator unchanged and increments the retry counter,
breaking once it reaches `maxRetries`. -/
def fetchStep (batch : Nat) (st : FetchState) :
    FetchResponse → FetchState ⊕ List RawRecord
  | .success [] => .inr st.all_items
  | .success (it :: its) =>
    .inl ⟨st.all_items ++ it :: its, st.start + batch, 0⟩
  | .failure =>
    if st.retry_count + 1 ≥ maxRetries then .inr st.all_items
    else .inl ⟨st.all_items, st.start, st.retry_count + 1⟩

/-- The fetch loop run against a finite script of responses, one per
request; an exhausted script cuts the run off and yields the accumulator,
like the loop observed mid-flight. -/
def fetch_all_items (batch : Nat) : FetchState → List FetchResponse → List RawRecord
  | st, [] => st.all_items
  | st, r :: rs =>
    match fetchStep batch st r with
    | .inr result => result
    | .inl st' => fetch_all_items batch st' rs

-- ---------------------------------------------------------------------------
-- Endpoint selection in `main`
-- ---------------------------------------------------------------------------

/-- A real collection key: present and not the hard-coded placeholder
`"VD8Z582Z"`. -/
def isRealCollectionKey (k : Str) : Bool :=
  !k.isEmpty && k != "VD8Z582Z".data

/-- The endpoint `main` fetches from: the collection-level URL for a real
collection key, the group-level URL otherwise. -/
def zoteroBaseUrl (groupId collectionKey : Str) : Str :=
  if isRealCollectionKey collectionKey then
    "https://api.zotero.org/groups/".data ++ groupId ++
      "/collections/".data ++ collectionKey ++ "/items".data
  else
    "https://api.zotero.org/groups/".data ++ groupId ++ "/items".data

/-- A record whose title is whitespace only: it is skipped without being a
duplicate of anything, yet the derived statistic reports it as a removed
duplicate. -/
def emptyTitleRecord : RecordData :=
  ⟨" ".data, [], [], [], [], [], [], []⟩

/-- An optional field that is either absent or a non-empty string fixed by
`trim`. -/
def isTrimmedOpt : Option Str → Prop
  | none => True
  | some t => t ≠ [] ∧ trim t = t

-- ---------------------------------------------------------------------------
-- Lemmas about `trim`
-- ---------------------------------------------------------------------------

lemma dropLeadWS_cons_ws {c : Char} (h : isWS c = true) (s : Str) :
    dropLeadWS (c :: s) = dropLeadWS s := by
  simp [dropLeadWS, List.dropWhile, h]

lemma dropLeadWS_cons_not {c : Char} (h : isWS c = false) (s : Str) :
    dropLeadWS (c :: s) = c :: s := by
  simp [dropLeadWS, List.dropWhile, h]

lemma dropLeadWS_shape (s : Str) :
    dropLeadWS s = [] ∨ ∃ c t, dropLeadWS s = c :: t ∧ isWS c = false := by
  induction s with
  | nil => exact Or.inl rfl
  | cons c cs ih =>
    cases hc : isWS c with
    | true => rw [dropLeadWS_cons_ws hc]; exact ih
    | false => exact Or.inr ⟨c, cs, dropLeadWS_cons_not hc cs, hc⟩

lemma dropTrailWS_cons (c : Char) (cs : Str) :
    dropTrailWS (c :: cs) =
      if (dropTrailWS cs).isEmpty && isWS c then [] else c :: dropTrailWS cs := rfl

lemma dropTrailWS_idem (s : Str) : dropTrailWS (dropTrailWS s) = dropTrailWS s := by
  induction s with
  | nil => rfl
  | cons c cs ih =>
    rw [dropTrailWS_cons]
    by_cases h : ((dropTrailWS cs).isEmpty && isWS c) = true
    · rw [if_pos h]; rfl
    · rw [if_neg h, dropTrailWS_cons, ih, if_neg h]

lemma dropLeadWS_trim (s : Str) : dropLeadWS (trim s) = trim s := by
  unfold trim
  rcases dropLeadWS_shape s with h | ⟨c, t, h, hc⟩
  · rw [h]; rfl
  · rw [h, dropTrailWS_cons]
    by_cases h2 : ((dropTrailWS t).isEmpty && isWS c) = true
    · rw [if_pos h2]; rfl
    · rw [if_neg h2]; exact dropLeadWS_cons_not hc _

lemma trim_idem (s : Str) : trim (trim s) = trim s := by
  conv_lhs => rw [trim, dropLeadWS_trim]
  rw [trim, dropTrailWS_idem]

lemma trim_cons_space (s : Str) : trim (' ' :: s) = trim s := by
  unfold trim
  rw [dropLeadWS_cons_ws (show isWS ' ' = true from rfl)]

-- ---------------------------------------------------------------------------
-- C3 and C8
-- ---------------------------------------------------------------------------

/-- C3: the fetch loop retries a failed request at the same unchanged offset
with the accumulator intact, resets the retry counter to zero after any
successful (non-empty) page, and after three consecutive failures stops and
returns the records accumulated so far, ignoring any further responses. -/
theorem fetch_retry_policy (batch : Nat) (st : FetchState)
    (acc : List RawRecord) (start : Nat) (rs : List FetchResponse)
    (it : RawRecord) (its : List RawRecord) :
    (st.retry_count + 1 < maxRetries →
      fetchStep batch st .failure =
        .inl ⟨st.all_items, st.start, st.retry_count + 1⟩) ∧
    fetchStep batch st (.success (it :: its)) =
      .inl ⟨st.all_items ++ it :: its, st.start + batch, 0⟩ ∧
    fetch_all_items batch ⟨acc, start, 0⟩
      (.failure :: .failure :: .failure :: rs) = acc := by
  refine ⟨fun h => ?_, rfl, ?_⟩
  · rw [fetchStep, if_neg (by omega)]
  · simp [fetch_all_items, fetchStep, maxRetries]

theorem fetch_retry_policy_witness :
    fetchStep 100 ⟨[], 0, 0⟩ .failure = .inl ⟨[], 0, 1⟩ :=
  (fetch_retry_policy 100 ⟨[], 0, 0⟩ [] 0 [] .malformed []).1 (by decide)

/-- C8: the fetch endpoint is the collection-level URL
`.../groups/{g}/collections/{k}/items` when a real collection key is
supplied (non-empty and not the placeholder `"VD8Z582Z"`), and the
group-level URL `.../groups/{g}/items` otherwise. -/
theorem base_url_selection (g k : Str) :
    (isRealCollectionKey k = true →
      zoteroBaseUrl g k =
        "https://api.zotero.org/groups/".data ++ g ++
          "/collections/".data ++ k ++ "/items".data) ∧
    (isRealCollectionKey k = false →
      zoteroBaseUrl g k =
        "https://api.zotero.org/groups/".data ++ g ++ "/items".data) := by
  constructor <;> intro h <;> simp [zoteroBaseUrl, h]

theorem base_url_selection_witness :
    zoteroBaseUrl "12345".data "ABCD1234".data =
      "https://api.zotero.org/groups/".data ++ "12345".data ++
        "/collections/".data ++ "ABCD1234".data ++ "/items".data ∧
    zoteroBaseUrl "12345".data "VD8Z582Z".data =
      "https://api.zotero.org/groups/".data ++ "12345".data ++ "/items".data :=
  ⟨(base_url_selection "12345".data "ABCD1234".data).1 (by decide),
   (base_url_selection "12345".data "VD8Z582Z".data).2 (by decide)⟩

-- ---------------------------------------------------------------------------
-- C2
-- ---------------------------------------------------------------------------

/-- C2: `assign_region` lower-cases the title and returns the first of the
five keyword groups, in their fixed priority order, with a substring match
(`firstMatchingRegion`), `Unknown` when no keyword matches or the title is
empty; in particular the title `"Coral reefs of Guam in the Pacific"` is
classified `Mariana Archipelago`, not `Pacific-wide`. -/
theorem assign_region_priority :
    (∀ t, assign_region t = firstMatchingRegion t) ∧
    assign_region "Coral reefs of Guam in the Pacific".data
      = "Mariana Archipelago".data ∧
    assign_region [] = "Unknown".data ∧
    (∀ t, (∀ g ∈ regionGroups, ∀ kw ∈ g.1, containsSub kw (lowerStr t) = false) →
      assign_region t = "Unknown".data) := by
  have key : ∀ t, assign_region t = firstMatchingRegion t := by
    intro t
    match t with
    | [] => decide
    | c :: cs =>
      simp only [assign_region, firstMatchingRegion, regionGroups, List.isEmpty_cons,
        Bool.false_eq_true, if_false]
      split_ifs with h1 h2 h3 h4 h5 <;> simp [List.find?, *]
  refine ⟨key, by decide, by decide, fun t h => ?_⟩
  rw [key t, firstMatchingRegion]
  rw [List.find?_eq_none.mpr ?_]
  intro g hg
  simp only [Bool.not_eq_true, List.any_eq_false]
  exact fun kw hkw => h g hg kw hkw

theorem assign_region_priority_witness :
    assign_region "deep sea corals".data = "Unknown".data :=
  assign_region_priority.2.2.2 "deep sea corals".data (by decide)

-- ---------------------------------------------------------------------------
-- C7
-- ---------------------------------------------------------------------------

/-- C7: `clean_creators` keeps exactly the creators with at least one
non-empty trimmed name, renders each kept creator by joining the trimmed
names with one space and trimming the result (a missing first name leaves
just the trimmed last name), joins the rendered names with `"; "`, and
maps the empty creator list to the empty string. -/
theorem clean_creators_segments (cs : List Creator) :
    clean_creators cs = List.intercalate "; ".data (cleanNames cs) ∧
    (cleanNames cs).length =
      cs.countP (fun c => !(trim c.firstName).isEmpty || !(trim c.lastName).isEmpty) ∧
    (∀ c : Creator, trim c.firstName = [] → renderName c = trim c.lastName) ∧
    clean_creators [] = [] := by
  refine ⟨?_, ?_, fun c h => ?_, rfl⟩
  · cases cs with
    | nil => rfl
    | cons c cs => rfl
  · induction cs with
    | nil => rfl
    | cons c cs ih =>
      simp only [cleanNames, Bool.and_eq_true, List.isEmpty_iff] at ih ⊢
      by_cases hf : trim c.firstName = [] <;> by_cases hl : trim c.lastName = [] <;>
        simp [List.filterMap_cons, List.countP_cons, hf, hl, List.isEmpty_iff, ih]
  · rw [renderName, h]
    have h2 : ([] : Str) ++ [' '] ++ trim c.lastName = ' ' :: trim c.lastName := rfl
    rw [h2, trim_cons_space, trim_idem]

theorem clean_creators_segments_witness :
    renderName ⟨"  ".data, " Doe ".data⟩ = trim " Doe ".data :=
  (clean_creators_segments []).2.2.1 ⟨"  ".data, " Doe ".data⟩ (by decide)

-- ---------------------------------------------------------------------------
-- Lemmas about the processing loop and the sort
-- ---------------------------------------------------------------------------

lemma processLoop_fst (items : List RawRecord) : ∀ seen,
    (processLoop items seen).1 = (firstOccRecords items seen).map mkPub := by
  induction items with
  | nil => intro seen; rfl
  | cons r rest ih =>
    intro seen
    cases r with
    | malformed => simp only [processLoop, firstOccRecords]; exact ih seen
    | ok d =>
      simp only [processLoop, firstOccRecords]
      by_cases h1 : (trim d.title).isEmpty = true
      · simp [h1, ih seen]
      · by_cases h2 : trim d.title ∈ seen
        · simp [h1, h2, ih seen]
        · simp [h1, h2, ih (trim d.title :: seen)]

lemma processLoop_snd (items : List RawRecord) : ∀ seen,
    (processLoop items seen).2 = items.countP isMalformed := by
  induction items with
  | nil => intro seen; rfl
  | cons r rest ih =>
    intro seen
    cases r with
    | malformed => simp [processLoop, List.countP_cons, isMalformed, ih seen]
    | ok d =>
      simp only [processLoop, List.countP_cons, isMalformed]
      by_cases h1 : (trim d.title).isEmpty = true
      · simp [h1, ih seen]
      · by_cases h2 : trim d.title ∈ seen
        · simp [h1, h2, ih seen]
        · simp [h1, h2, ih (trim d.title :: seen)]

lemma pubsOf_eq (items : List RawRecord) :
    pubsOf items = sortByYearDesc (processedPubs items) := rfl

lemma processedPubs_eq (items : List RawRecord) :
    processedPubs items = (firstOccRecords items []).map mkPub :=
  processLoop_fst items []

lemma errorsOf_eq (items : List RawRecord) :
    errorsOf items = (processLoop items []).2 := rfl

lemma mem_insertByYear {q p : Publication} {l : List Publication} :
    q ∈ insertByYear p l ↔ q = p ∨ q ∈ l := by
  induction l with
  | nil => simp [insertByYear]
  | cons r rs ih =>
    rw [insertByYear]
    by_cases h : yearKey r ≤ yearKey p
    · simp [h]
    · rw [if_neg h]
      simp only [List.mem_cons, ih]
      tauto

lemma length_insertByYear (p : Publication) (l : List Publication) :
    (insertByYear p l).length = l.length + 1 := by
  induction l with
  | nil => rfl
  | cons r rs ih =>
    rw [insertByYear]
    by_cases h : yearKey r ≤ yearKey p
    · simp [h]
    · rw [if_neg h]
      simp [ih]

lemma length_sortByYearDesc (l : List Publication) :
    (sortByYearDesc l).length = l.length := by
  rw [sortByYearDesc]
  induction l with
  | nil => rfl
  | cons p ps ih => rw [sortByYearDescAux, length_insertByYear, ih, List.length_cons]

lemma mem_sortByYearDesc {p : Publication} {l : List Publication} :
    p ∈ sortByYearDesc l ↔ p ∈ l := by
  rw [sortByYearDesc]
  induction l with
  | nil => rfl
  | cons q qs ih =>
    rw [sortByYearDescAux]
    rw [List.mem_cons, mem_insertByYear, ih]

lemma pairwise_insertByYear {p : Publication} {l : List Publication}
    (h : List.Pairwise (fun a b => yearKey b ≤ yearKey a) l) :
    List.Pairwise (fun a b => yearKey b ≤ yearKey a) (insertByYear p l) := by
  induction l with
  | nil => simp [insertByYear]
  | cons q qs ih =>
    rw [List.pairwise_cons] at h
    rw [insertByYear]
    by_cases hq : yearKey q ≤ yearKey p
    · rw [if_pos hq, List.pairwise_cons]
      refine ⟨?_, List.pairwise_cons.mpr h⟩
      intro b hb
      rcases List.mem_cons.mp hb with rfl | hb
      · exact hq
      · exact le_trans (h.1 b hb) hq
    · rw [if_neg hq, List.pairwise_cons]
      refine ⟨?_, ih h.2⟩
      intro b hb
      rcases mem_insertByYear.mp hb with rfl | hb
      · exact le_of_lt (lt_of_not_le hq)
      · exact h.1 b hb

lemma pairwise_sortByYearDesc (l : List Publication) :
    List.Pairwise (fun a b => yearKey b ≤ yearKey a) (sortByYearDesc l) := by
  rw [sortByYearDesc]
  induction l with
  | nil => exact List.Pairwise.nil
  | cons p ps ih =>
    rw [sortByYearDescAux]
    exact pairwise_insertByYear ih

lemma filter_insertByYear (y : Nat) (p : Publication) (l : List Publication) :
    (insertByYear p l).filter (fun q => yearKey q == y) =
      (p :: l).filter (fun q => yearKey q == y) := by
  induction l with
  | nil => rfl
  | cons q qs ih =>
    rw [insertByYear]
    by_cases hq : yearKey q ≤ yearKey p
    · rw [if_pos hq]
    · rw [if_neg hq]
      have hne : ¬(yearKey p = y ∧ yearKey q = y) := by
        rintro ⟨h1, h2⟩
        exact hq (le_of_eq (h2.trans h1.symm))
      by_cases hp : yearKey p = y <;> by_cases hqy : yearKey q = y <;>
        simp [List.filter_cons, hp, hqy, ih] at *

lemma firstDedup_nil : firstDedup [] = [] := by
  rw [firstDedup]

lemma firstDedup_cons (t : Str) (l : List Str) :
    firstDedup (t :: l) = t :: firstDedup (l.filter (fun u => u != t)) := by
  rw [firstDedup]

lemma mem_firstDedup_fuel (n : Nat) : ∀ l : List Str, l.length ≤ n →
    ∀ x, x ∈ firstDedup l → x ∈ l := by
  induction n with
  | zero =>
    intro l hl x hx
    rw [List.length_eq_zero.mp (Nat.le_zero.mp hl)] at hx ⊢
    rwa [firstDedup_nil] at hx
  | succ n ih =>
    intro l hl x hx
    cases l with
    | nil => rwa [firstDedup_nil] at hx
    | cons t rest =>
      rw [firstDedup_cons] at hx
      rcases List.mem_cons.mp hx with rfl | hx
      · exact List.mem_cons_self _ _
      · have hlen : (rest.filter (fun u => u != t)).length ≤ n := by
          have := List.length_filter_le (fun u => u != t) rest
          simp only [List.length_cons] at hl
          omega
        exact List.mem_cons_of_mem _
          (List.mem_of_mem_filter (ih _ hlen x hx))

lemma mem_firstDedup {x : Str} {l : List Str} (h : x ∈ firstDedup l) : x ∈ l :=
  mem_firstDedup_fuel l.length l (le_refl _) x h

lemma nodup_firstDedup_fuel (n : Nat) : ∀ l : List Str, l.length ≤ n →
    (firstDedup l).Nodup := by
  induction n with
  | zero =>
    intro l hl
    rw [List.length_eq_zero.mp (Nat.le_zero.mp hl), firstDedup_nil]
    exact List.nodup_nil
  | succ n ih =>
    intro l hl
    cases l with
    | nil => rw [firstDedup_nil]; exact List.nodup_nil
    | cons t rest =>
      rw [firstDedup_cons, List.nodup_cons]
      have hlen : (rest.filter (fun u => u != t)).length ≤ n := by
        have := List.length_filter_le (fun u => u != t) rest
        simp only [List.length_cons] at hl
        omega
      refine ⟨fun hmem => ?_, ih _ hlen⟩
      have := List.of_mem_filter (mem_firstDedup hmem)
      simp at this

lemma nodup_firstDedup (l : List Str) : (firstDedup l).Nodup :=
  nodup_firstDedup_fuel l.length l (le_refl _)

lemma firstOcc_titles (items : List RawRecord) : ∀ seen : List Str,
    (firstOccRecords items seen).map (fun d => trim d.title) =
      firstDedup (((okDatas items).map (fun d => trim d.title)).filter
        (fun t => !t.isEmpty && decide (t ∉ seen))) := by
  induction items with
  | nil => intro seen; simp [firstOccRecords, okDatas, firstDedup_nil]
  | cons r rest ih =>
    intro seen
    cases r with
    | malformed => simp only [firstOccRecords, okDatas]; exact ih seen
    | ok d =>
      simp only [firstOccRecords, okDatas, List.map_cons, List.filter_cons]
      by_cases h1 : (trim d.title).isEmpty = true
      · have hdrop : (!(trim d.title).isEmpty && decide (trim d.title ∉ seen)) = false := by
          simp [h1]
        rw [if_pos h1, hdrop, if_neg (by simp)]
        exact ih seen
      · by_cases h2 : trim d.title ∈ seen
        · have hdrop : (!(trim d.title).isEmpty && decide (trim d.title ∉ seen)) = false := by
            simp [h1, h2]
          rw [if_neg h1, if_pos h2, hdrop, if_neg (by simp)]
          exact ih seen
        · have hcond : (!(trim d.title).isEmpty && decide (trim d.title ∉ seen)) = true := by
            simp [h1, h2]
          rw [if_pos hcond, firstDedup_cons, List.filter_filter]
          have hpred : (fun u => (u != trim d.title) &&
              (!u.isEmpty && decide (u ∉ seen))) =
              (fun u : Str => !u.isEmpty && decide (u ∉ trim d.title :: seen)) := by
            funext u
            by_cases hu1 : u = trim d.title <;> by_cases hu2 : u ∈ seen <;>
              simp [hu1, hu2, List.mem_cons]
          simp only [hpred]
          simp [h1, h2, ih (trim d.title :: seen)]

lemma firstOcc_nonempty (items : List RawRecord) : ∀ seen : List Str,
    ∀ d ∈ firstOccRecords items seen, (trim d.title).isEmpty = false := by
  induction items with
  | nil => intro seen d hd; exact absurd hd (List.not_mem_nil d)
  | cons r rest ih =>
    intro seen d hd
    cases r with
    | malformed => exact ih seen d hd
    | ok d' =>
      rw [firstOccRecords] at hd
      by_cases h1 : (trim d'.title).isEmpty = true
      · rw [if_pos h1] at hd; exact ih seen d hd
      · rw [if_neg h1] at hd
        by_cases h2 : trim d'.title ∈ seen
        · rw [if_pos h2] at hd; exact ih seen d hd
        · rw [if_neg h2] at hd
          rcases List.mem_cons.mp hd with rfl | hd
          · exact Bool.not_eq_true _ ▸ h1
          · exact ih _ d hd

lemma firstOcc_sublist (items : List RawRecord) : ∀ seen : List Str,
    List.Sublist (firstOccRecords items seen) (okDatas items) := by
  induction items with
  | nil => intro seen; exact List.Sublist.refl _
  | cons r rest ih =>
    intro seen
    cases r with
    | malformed => exact ih seen
    | ok d =>
      rw [firstOccRecords, okDatas]
      by_cases h1 : (trim d.title).isEmpty = true
      · rw [if_pos h1]; exact List.Sublist.cons d (ih seen)
      · rw [if_neg h1]
        by_cases h2 : trim d.title ∈ seen
        · rw [if_pos h2]; exact List.Sublist.cons d (ih seen)
        · rw [if_neg h2]; exact List.Sublist.cons₂ d (ih _)

lemma firstOcc_length_le (items : List RawRecord) : ∀ seen : List Str,
    (firstOccRecords items seen).length ≤
      ((okDatas items).filter (fun d => !(trim d.title).isEmpty)).length := by
  induction items with
  | nil => intro seen; exact le_refl _
  | cons r rest ih =>
    intro seen
    cases r with
    | malformed => exact ih seen
    | ok d =>
      rw [firstOccRecords, okDatas, List.filter_cons]
      by_cases h1 : (trim d.title).isEmpty = true
      · have hdrop : (!(trim d.title).isEmpty) = false := by simp [h1]
        rw [if_pos h1, hdrop, if_neg (by simp)]
        exact ih seen
      · have hkeep : (!(trim d.title).isEmpty) = true := by simp [h1]
        rw [if_neg h1, hkeep, if_pos rfl]
        by_cases h2 : trim d.title ∈ seen
        · rw [if_pos h2]
          exact Nat.le_succ_of_le (ih seen)
        · rw [if_neg h2, List.length_cons, List.length_cons]
          exact Nat.succ_le_succ (ih _)

lemma length_split (items : List RawRecord) :
    items.length = (okDatas items).length + items.countP isMalformed := by
  induction items with
  | nil => rfl
  | cons r rest ih =>
    cases r with
    | malformed =>
      rw [okDatas, List.length_cons, List.countP_cons]
      simp [isMalformed, ih]
      omega
    | ok d =>
      rw [okDatas, List.length_cons, List.countP_cons, List.length_cons]
      simp [isMalformed, ih]
      omega

lemma filter_sortByYearDesc (y : Nat) (l : List Publication) :
    (sortByYearDesc l).filter (fun q => yearKey q == y) =
      l.filter (fun q => yearKey q == y) := by
  rw [sortByYearDesc]
  induction l with
  | nil => rfl
  | cons p ps ih =>
    rw [sortByYearDescAux, filter_insertByYear]
    simp only [List.filter_cons, ih]

lemma isTrimmedOpt_strOrNone (s : Str) : isTrimmedOpt (strOrNone (trim s)) := by
  rw [strOrNone]
  by_cases h : (trim s).isEmpty = true
  · rw [if_pos h]
    trivial
  · rw [if_neg h]
    refine ⟨fun hnil => h ?_, trim_idem s⟩
    rw [hnil]
    rfl

-- ---------------------------------------------------------------------------
-- C4, C5, C6, C9, C10
-- ---------------------------------------------------------------------------

/-- C4: a record whose trimmed title is empty yields no `Publication` and is
not counted as an error (errors count exactly the malformed records); the
surviving records are in bijection with the first occurrences of the
distinct non-empty trimmed titles (`firstDedup` keeps first occurrences),
so among records sharing a trimmed title — compared exactly and
case-sensitively — only the first-encountered one yields a `Publication`,
and the output titles are duplicate-free and never empty. -/
theorem process_dedup_first_only (items : List RawRecord) :
    processedPubs items = (firstOccRecords items []).map mkPub ∧
    (firstOccRecords items []).map (fun d => trim d.title) =
      firstDedup (((okDatas items).map (fun d => trim d.title)).filter
        (fun t => !t.isEmpty)) ∧
    ((processedPubs items).map Publication.title).Nodup ∧
    (processedPubs items).filter (fun p => p.title.isEmpty) = [] ∧
    errorsOf items = items.countP isMalformed := by
  have htitles : (firstOccRecords items []).map (fun d => trim d.title) =
      firstDedup (((okDatas items).map (fun d => trim d.title)).filter
        (fun t => !t.isEmpty)) := by
    rw [firstOcc_titles items []]
    have hpred : (fun t : Str => !t.isEmpty && decide (t ∉ ([] : List Str))) =
        (fun t : Str => !t.isEmpty) := by
      funext t
      simp
    rw [hpred]
  have hmap : processedPubs items = (firstOccRecords items []).map mkPub :=
    processLoop_fst items []
  refine ⟨hmap, htitles, ?_, ?_, ?_⟩
  · have hcomp : (processedPubs items).map Publication.title =
        (firstOccRecords items []).map (fun d => trim d.title) := by
      rw [hmap, List.map_map]
      rfl
    rw [hcomp, htitles]
    exact nodup_firstDedup _
  · rw [List.filter_eq_nil_iff]
    intro p hp
    rw [hmap] at hp
    obtain ⟨d, hd, rfl⟩ := List.mem_map.mp hp
    have := firstOcc_nonempty items [] d hd
    simp only [mkPub]
    simp [this]
  · rw [errorsOf_eq, processLoop_snd]

/-- C5: the publication list returned by `process_publications` is
non-increasing by year, an absent year ordering as 0. -/
theorem pubs_sorted_year_desc (items : List RawRecord) :
    List.Pairwise (fun p q : Publication => q.year.getD 0 ≤ p.year.getD 0)
      (pubsOf items) := by
  rw [pubsOf_eq]
  exact pairwise_sortByYearDesc (processedPubs items)

/-- C6: the reported duplicates-removed statistic is exactly the input count
minus the publication count minus the error count, a derived value; it
actually counts every skipped record — empty-title skips included — so a
single whitespace-titled record with no duplicate anywhere is reported as
one removed duplicate. -/
theorem duplicates_removed_derived (items : List RawRecord) :
    duplicates_removed items =
      (items.length : Int) - (pubsOf items).length - (errorsOf items) ∧
    duplicates_removed items =
      (((okDatas items).filter (fun d => (trim d.title).isEmpty)).length : Int) +
      ((((okDatas items).filter (fun d => !(trim d.title).isEmpty)).length : Int) -
        (processedPubs items).length) ∧
    duplicates_removed [RawRecord.ok emptyTitleRecord] = 1 := by
  refine ⟨rfl, ?_, by decide⟩
  have h1 : items.length = (okDatas items).length + items.countP isMalformed :=
    length_split items
  have h2 := @List.length_eq_length_filter_add RecordData (okDatas items)
    (fun d => (trim d.title).isEmpty)
  simp only [] at h2
  have h3 : errorsOf items = items.countP isMalformed := by
    rw [errorsOf_eq, processLoop_snd]
  have h4 : (pubsOf items).length = (processedPubs items).length := by
    rw [pubsOf_eq, length_sortByYearDesc]
  have h5 : (processedPubs items).length ≤
      ((okDatas items).filter (fun d => !(trim d.title).isEmpty)).length := by
    rw [processedPubs_eq, List.length_map]
    exact firstOcc_length_le items []
  rw [duplicates_removed, h3, h4]
  omega

/-- C9: every publication built by `process_publications` has its region
equal to `assign_region` of its own title, and each of the doi, issn, url
and publication-title fields is either absent or a non-empty string fixed
by `trim` — never the empty string. -/
theorem pub_field_invariants (items : List RawRecord) (p : Publication)
    (hp : p ∈ pubsOf items) :
    p.region = assign_region p.title ∧
    isTrimmedOpt p.doi ∧ isTrimmedOpt p.issn ∧ isTrimmedOpt p.url ∧
    isTrimmedOpt p.publication_title := by
  rw [pubsOf_eq] at hp
  have hp2 : p ∈ processedPubs items := mem_sortByYearDesc.mp hp
  rw [processedPubs_eq] at hp2
  obtain ⟨d, _, rfl⟩ := List.mem_map.mp hp2
  exact ⟨rfl, isTrimmedOpt_strOrNone d.DOI, isTrimmedOpt_strOrNone d.ISSN,
    isTrimmedOpt_strOrNone d.url, isTrimmedOpt_strOrNone d.publicationTitle⟩

/-- A well-shaped record used to instantiate theorems about processing. -/
def exRecord : RecordData :=
  ⟨" Guam reef fish ".data, [⟨"Jane".data, "Doe".data⟩], "2020-03-01".data,
   " 10.1000/x ".data, [], "https://example.org/x".data,
   "journalArticle".data, " Reef Journal ".data⟩

theorem pub_field_invariants_witness :
    (mkPub exRecord).region = assign_region (mkPub exRecord).title ∧
    isTrimmedOpt (mkPub exRecord).doi ∧ isTrimmedOpt (mkPub exRecord).issn ∧
    isTrimmedOpt (mkPub exRecord).url ∧
    isTrimmedOpt (mkPub exRecord).publication_title :=
  pub_field_invariants [RawRecord.ok exRecord] (mkPub exRecord) (by decide)

/-- C10: filtering the output by any effective year gives the same list as
filtering the pre-sort processed list (the sort is stable), the pre-sort
list is `mkPub` mapped over the surviving records, and the surviving
records are an order-preserving sublist of the well-shaped input records:
equal-effective-year publications keep their first-occurrence input order. -/
theorem equal_year_stable_order (items : List RawRecord) (y : Nat) :
    (pubsOf items).filter (fun p => yearKey p == y) =
      (processedPubs items).filter (fun p => yearKey p == y) ∧
    processedPubs items = (firstOccRecords items []).map mkPub ∧
    List.Sublist (firstOccRecords items []) (okDatas items) :=
  ⟨by rw [pubsOf_eq, filter_sortByYearDesc],
   processLoop_fst items [],
   firstOcc_sublist items []⟩

-- ---------------------------------------------------------------------------
-- C1
-- ---------------------------------------------------------------------------

lemma scanIdx_eq_some (p : Nat → Bool) : ∀ fuel i j,
    scanIdx p i fuel = some j ↔
      (i ≤ j ∧ j < i + fuel ∧ p j = true ∧
        ∀ k, i ≤ k → k < j → p k = false) := by
  intro fuel
  induction fuel with
  | zero =>
    intro i j
    constructor
    · intro h
      exact absurd h (by simp [scanIdx])
    · rintro ⟨h1, h2, -, -⟩
      omega
  | succ fuel ih =>
    intro i j
    rw [scanIdx]
    by_cases hp : p i = true
    · rw [if_pos hp]
      constructor
      · intro h
        injection h with h
        subst h
        exact ⟨le_refl _, by omega, hp,
          fun k hk1 hk2 => absurd (Nat.lt_of_le_of_lt hk1 hk2) (Nat.lt_irrefl i)⟩
      · rintro ⟨h1, _, _, h4⟩
        have hij : i = j := by
          rcases Nat.lt_or_ge i j with h | h
          · exact absurd (h4 i (le_refl i) h) (by simp [hp])
          · exact Nat.le_antisymm h1 h
        rw [hij]
    · rw [if_neg hp]
      rw [ih (i+1) j]
      constructor
      · rintro ⟨h1, h2, h3, h4⟩
        refine ⟨by omega, by omega, h3, fun k hk1 hk2 => ?_⟩
        rcases Nat.eq_or_lt_of_le hk1 with h | h
        · rw [← h]
          simpa using hp
        · exact h4 k h hk2
      · rintro ⟨h1, h2, h3, h4⟩
        have hij : i ≠ j := by
          rintro rfl
          exact hp h3
        refine ⟨by omega, by omega, h3, fun k hk1 hk2 => h4 k (by omega) hk2⟩

lemma scanIdx_eq_none (p : Nat → Bool) : ∀ fuel i,
    scanIdx p i fuel = none ↔ ∀ k, i ≤ k → k < i + fuel → p k = false := by
  intro fuel
  induction fuel with
  | zero =>
    intro i
    constructor
    · intro _ k h1 h2
      omega
    · intro _
      rfl
  | succ fuel ih =>
    intro i
    rw [scanIdx]
    by_cases hp : p i = true
    · rw [if_pos hp]
      constructor
      · intro h
        exact absurd h (by simp)
      · intro h
        exact absurd (h i (le_refl i) (by omega)) (by simp [hp])
    · rw [if_neg hp, ih (i+1)]
      constructor
      · intro h k hk1 hk2
        rcases Nat.eq_or_lt_of_le hk1 with he | he
        · rw [← he]
          simpa using hp
        · exact h k he (by omega)
      · intro h k hk1 hk2
        exact h k (by omega) (by omega)

lemma optAny_eq_false_iff (w : Char → Bool) (o : Option Char) :
    (o.any w = false) ↔ (o.all (fun c => !w c) = true) := by
  cases o <;> simp [Option.any, Option.all]

lemma RunAt_lt_length {s : Str} {i : Nat} (h : RunAt s i) : i < s.length := by
  obtain ⟨h1, -, -⟩ := h
  have h0 := h1 0 (by omega)
  cases ho : s[i+0]? with
  | none =>
    rw [ho] at h0
    exact absurd h0 (by simp [Option.any])
  | some c =>
    have := (List.getElem?_eq_some.mp ho).1
    omega

lemma matchAt_iff_RunAt (s : Str) (i : Nat) : matchAt s i = true ↔ RunAt s i := by
  rw [matchAt, RunAt]
  simp only [Bool.and_eq_true, Bool.or_eq_true, beq_iff_eq, Bool.not_eq_true',
    List.all_eq_true, List.mem_range, and_assoc]
  constructor
  · rintro ⟨h1, h2, h3⟩
    refine ⟨fun k hk => h1 k hk, ?_, Or.inr ((optAny_eq_false_iff _ _).mp h3)⟩
    rcases h2 with h2 | h2
    · exact Or.inl h2
    · exact Or.inr ((optAny_eq_false_iff _ _).mp h2)
  · rintro ⟨h1, h2, h3⟩
    refine ⟨fun k hk => h1 k hk, ?_, ?_⟩
    · rcases h2 with h2 | h2
      · exact Or.inl h2
      · exact Or.inr ((optAny_eq_false_iff _ _).mpr h2)
    · rcases h3 with h3 | h3
      · have : s[i+4]? = none := List.getElem?_eq_none (by omega)
        rw [this]
        rfl
      · exact (optAny_eq_false_iff _ _).mpr h3

/-- C1 (amended): `extract_year` returns, for a present non-empty string,
the integer value of the first run of exactly four consecutive digits
bounded on both sides by a non-word character (not a letter, digit or
underscore) or the string edge, and `none` when the input is absent,
empty, or contains no such run. (The original claim read the boundary as
merely non-digit; the code's `\b` is a word boundary.) -/
theorem extract_year_first_word_bounded_run :
    extract_year none = none ∧
    (∀ s : Str, extract_year (some s) = none ↔ ∀ i, ¬ RunAt s i) ∧
    (∀ (s : Str) (y : Nat), extract_year (some s) = some y ↔
      ∃ i, RunAt s i ∧ (∀ j, j < i → ¬ RunAt s j) ∧
        y = digitsToNat ((s.drop i).take 4)) := by
  refine ⟨rfl, fun s => ?_, fun s y => ?_⟩
  · rw [extract_year]
    by_cases hs : s.isEmpty = true
    · rw [if_pos hs, List.isEmpty_iff.mp hs]
      constructor
      · intro _ i hRun
        exact absurd (RunAt_lt_length hRun) (by simp)
      · intro _
        rfl
    · rw [if_neg hs, Option.map_eq_none', scanIdx_eq_none]
      constructor
      · intro h i hRun
        have hi := RunAt_lt_length hRun
        have hk := h i (by omega) (by omega)
        rw [(matchAt_iff_RunAt s i).mpr hRun] at hk
        exact Bool.noConfusion hk
      · intro h k _ _
        by_contra hb
        have hT : matchAt s k = true := by
          simpa using hb
        exact h k ((matchAt_iff_RunAt s k).mp hT)
  · rw [extract_year]
    by_cases hs : s.isEmpty = true
    · rw [if_pos hs]
      have hnil : s = [] := List.isEmpty_iff.mp hs
      constructor
      · intro h
        exact absurd h (by simp)
      · rintro ⟨i, hRun, -, -⟩
        rw [hnil] at hRun
        exact absurd (RunAt_lt_length hRun) (by simp)
    · rw [if_neg hs]
      constructor
      · intro h
        obtain ⟨i, hscan, hval⟩ := Option.map_eq_some'.mp h
        obtain ⟨-, -, hp, hmin⟩ := (scanIdx_eq_some (matchAt s) s.length 0 i).mp hscan
        refine ⟨i, (matchAt_iff_RunAt s i).mp hp, fun j hj hR => ?_, hval.symm⟩
        have hf := hmin j (by omega) hj
        rw [(matchAt_iff_RunAt s j).mpr hR] at hf
        exact Bool.noConfusion hf
      · rintro ⟨i, hRun, hmin, hval⟩
        have hp := (matchAt_iff_RunAt s i).mpr hRun
        have hlt := RunAt_lt_length hRun
        have hscan : scanIdx (matchAt s) 0 s.length = some i := by
          rw [scanIdx_eq_some]
          refine ⟨by omega, by omega, hp, fun k _ hk2 => ?_⟩
          by_contra hb
          have hT : matchAt s k = true := by
            simpa using hb
          exact hmin k hk2 ((matchAt_iff_RunAt s k).mp hT)
        rw [hscan]
        simp [hval]

/-- C1 counterexample: on `"a2020"` the code returns `none` (the `\b` word
boundary rejects the preceding letter), while the claim's non-digit
boundary reading returns `2020`; the two disagree. -/
theorem extract_year_nondigit_boundary_false :
    extract_year (some "a2020".data) = none ∧
    extract_year_claimed (some "a2020".data) = some 2020 ∧
    extract_year (some "a2020".data) ≠
      extract_year_claimed (some "a2020".data) := by
  refine ⟨by decide, by decide, by decide⟩

theorem extract_year_first_word_bounded_run_witness :
    extract_year (some "circa 1999 reprint 2005".data) = some 1999 :=
  (extract_year_first_word_bounded_run.2.2 "circa 1999 reprint 2005".data 1999).mpr
    ⟨6, by decide, by decide, by decide⟩
